import Mathlib

/-!
Verification development for the MSIX Package Support Framework file
redirection engine (`fixups/FileRedirectionFixup/PathRedirection.cpp`).

Paths are modelled as `List Char` (the wide-character strings of the
source).  Pure functions of the source are translated directly; the
OS facilities the source consumes (path classification, canonicalization,
`std::filesystem::path::operator/`) are not part of the repository and are
modelled from the specification, as marked on each such definition.
-/

/-- Modelled from the spec: `psf::is_path_separator` — a path separator is
a backslash or a forward slash (both appear throughout the source, e.g.
`find_first_of(LR"(\/)")`). -/
def is_path_separator (c : Char) : Bool :=
  c = '\\' || c = '/'

/-- Modelled from the spec: `psf::path_compare` compares single characters
of two paths; the spec calls the comparison case-insensitive (§4.3). -/
def path_compare (a b : Char) : Bool :=
  a.toLower = b.toLower

/-- `path_relative_toImpl(path, basePath)` from the source: true when
`basePath` is a character-wise `path_compare` prefix of `path`
(`std::equal(basePath.begin(), basePath.end(), path, psf::path_compare{})`).
No directory-boundary check happens here. -/
def path_relative_to : List Char → List Char → Bool
  | _, [] => true
  | [], _ :: _ => false
  | c :: cs, b :: bs => path_compare b c && path_relative_to cs bs

/-- True when the list starts with a path separator. -/
def startsSep : List Char → Bool
  | [] => false
  | c :: _ => is_path_separator c

/-- True when the list ends with a path separator. -/
def endsSep (l : List Char) : Bool :=
  match l.getLast? with
  | some c => is_path_separator c
  | none => false

/-- ASCII letter test for drive letters. -/
def isLetter (c : Char) : Bool :=
  (97 ≤ c.toNat && c.toNat ≤ 122) || (65 ≤ c.toNat && c.toNat ≤ 90)

/-- Modelled from the spec: the DOS path kinds the normalizer distinguishes
(§4.1 step 5): drive-absolute, local-device (`\\.\`), root-local-device
(`\\?\`), UNC-absolute, and the relative shapes. -/
inductive dos_path_type where
  | unknown
  | drive_absolute
  | drive_relative
  | rooted
  | relative
  | local_device
  | root_local_device
  | unc_absolute
deriving DecidableEq

/-- Modelled from the spec: `psf::path_type`, classifying a path string by
DOS path kind.  Only the empty string is `unknown`. -/
def pathType (l : List Char) : dos_path_type :=
  match l with
  | [] => .unknown
  | a :: as =>
    if is_path_separator a then
      match as with
      | [] => .rooted
      | b :: bs =>
        if is_path_separator b then
          match bs with
          | c :: d :: _ =>
            if c = '?' && is_path_separator d then .root_local_device
            else if c = '.' && is_path_separator d then .local_device
            else .unc_absolute
          | _ => .unc_absolute
        else .rooted
    else if isLetter a then
      match as with
      | b :: c :: _ =>
        if b = ':' then
          if is_path_separator c then .drive_absolute else .drive_relative
        else .relative
      | [b] => if b = ':' then .drive_relative else .relative
      | [] => .relative
    else .relative

/-- Splits a character list at path separators; separators are dropped and
every run between two separators becomes one (possibly empty) segment. -/
def splitSegs : List Char → List (List Char)
  | [] => [[]]
  | c :: rest =>
    if is_path_separator c then [] :: splitSegs rest
    else
      match splitSegs rest with
      | s :: ss => (c :: s) :: ss
      | [] => [[c]]

/-- Canonical segment processing: empty and `.` segments vanish, `..` pops
the previous surviving segment (clamped at the root). -/
def normSegsAux : List (List Char) → List (List Char) → List (List Char)
  | acc, [] => acc.reverse
  | acc, s :: rest =>
    if s = [] || s = ['.'] then normSegsAux acc rest
    else if s = ['.', '.'] then normSegsAux (acc.drop 1) rest
    else normSegsAux (s :: acc) rest

def normSegs (l : List (List Char)) : List (List Char) :=
  normSegsAux [] l

/-- Joins segments with the preferred separator `\`. -/
def joinSegs : List (List Char) → List Char
  | [] => []
  | [s] => s
  | s :: rest => s ++ '\\' :: joinSegs rest

def canonBody (l : List Char) : List Char :=
  joinSegs (normSegs (splitSegs l))

/-- Modelled from the spec: the OS path-canonicalization facility on a
drive-rooted string `X:\...` — resolves `.` and `..` segments, collapses
repeated separators to the preferred `\`, and keeps a trailing separator
when the input had one. -/
def canonDrive (x : List Char) : List Char :=
  x.take 2 ++ '\\' ::
    (canonBody (x.drop 3) ++
      (if endsSep x && !(normSegs (splitSegs (x.drop 3))).isEmpty then ['\\'] else []))

/-- Modelled from the spec: `psf::full_path` (the OS canonicalization of
§4.1 step 5) — drive-absolute, drive-relative, rooted and relative forms
are resolved against the current directory `cwd` into canonical
drive-absolute form; the body of a local-device path is canonicalized when
drive-rooted; UNC-absolute paths are left as given (the spec only requires
that they are never resolved to drive-absolute form). -/
def fullPath (cwd s : List Char) : List Char :=
  match pathType s with
  | .drive_absolute => canonDrive s
  | .drive_relative => canonDrive (s.take 2 ++ '\\' :: s.drop 2)
  | .rooted => canonDrive (cwd.take 2 ++ s)
  | .relative => canonDrive (cwd ++ '\\' :: s)
  | .local_device =>
      s.take 4 ++ (if pathType (s.drop 4) = .drive_absolute then canonDrive (s.drop 4) else s.drop 4)
  | .root_local_device => s
  | .unc_absolute => s
  | .unknown => s

/-- Modelled from `std::filesystem::path::operator/` in the regime the
source uses it (the right operand never carries a root): inserts the
preferred separator `\` unless the left side is empty or already ends with
a separator, or the right side begins with one. -/
def fsAppend (a b : List Char) : List Char :=
  if a.isEmpty || endsSep a || startsSep b then a ++ b else a ++ '\\' :: b

/-- Value of one hexadecimal digit. -/
def hexVal (c : Char) : Option Nat :=
  if 48 ≤ c.toNat && c.toNat ≤ 57 then some (c.toNat - 48)
  else if 97 ≤ c.toNat && c.toNat ≤ 102 then some (c.toNat - 97 + 10)
  else if 65 ≤ c.toNat && c.toNat ≤ 70 then some (c.toNat - 65 + 10)
  else none

/-- The value `sscanf("%x")` reads from the (up to two) characters after a
percent sign.  When no hex digit is present the source reads an
uninitialized variable; that unspecified value is modelled as 0. -/
def scanHex2 : List Char → Nat
  | a :: b :: _ =>
    match hexVal a, hexVal b with
    | some x, some y => 16 * x + y
    | some x, none => x
    | none, _ => 0
  | [a] => (hexVal a).getD 0
  | [] => 0

/-- `UrlDecode` from the source: every `%` consumes the following two
characters and emits the byte they denote (`static_cast<char>`, modelled
as reduction mod 256). -/
def UrlDecode : List Char → List Char
  | [] => []
  | c :: rest =>
    if c = '%' then
      match rest with
      | [] => [Char.ofNat (scanHex2 [] % 256)]
      | [a] => [Char.ofNat (scanHex2 [a] % 256)]
      | a :: b :: rest2 => Char.ofNat (scanHex2 [a, b] % 256) :: UrlDecode rest2
    else c :: UrlDecode rest

/-- `StripFileColonSlash` from the source: drops one leading
`file:\`, `file:/`, `FILE:\` or `FILE:/` prefix. -/
def StripFileColonSlash (s : List Char) : List Char :=
  if s.take 6 = "file:\\".toList || s.take 6 = "file:/".toList
      || s.take 6 = "FILE:\\".toList || s.take 6 = "FILE:/".toList
  then s.drop 6 else s

/-- `IsColonColonGuid` from the source: length strictly greater than 39 and
the first three characters are `:`, `:`, `{`. -/
def IsColonColonGuid (p : List Char) : Bool :=
  decide (39 < p.length) &&
    (match p with
     | a :: b :: c :: _ => a = ':' && b = ':' && c = '\x7b'
     | _ => false)

/-- `IsBlobColon` from the source: the string starts with `blob:` or
`BLOB:` (`find(...) == 0`). -/
def IsBlobColon (p : List Char) : Bool :=
  p.take 5 = "blob:".toList || p.take 5 = "BLOB:".toList

/-- `normalized_path` from the source: the canonical full path and,
when present, the drive-absolute view into it. -/
structure normalized_path where
  full_path : List Char := []
  drive_absolute_path : Option (List Char) := none
deriving DecidableEq

/-- `NormalizePathImpl` from the source: classify, canonicalize through the
OS facility, re-classify, and expose the drive-absolute suffix (after the
4-character device prefix for `\\?\` and `\\.\` forms); UNC-absolute paths
keep only `full_path`; other shapes are the empty sentinel. -/
def NormalizePathImpl (cwd s : List Char) : normalized_path :=
  if pathType s = dos_path_type.unknown then { full_path := [], drive_absolute_path := none }
  else
    let full := if pathType s = dos_path_type.root_local_device then s else fullPath cwd s
    match pathType full with
    | .drive_absolute => { full_path := full, drive_absolute_path := some full }
    | .local_device =>
        { full_path := full
          drive_absolute_path :=
            if pathType (full.drop 4) = dos_path_type.drive_absolute then some (full.drop 4) else none }
    | .root_local_device =>
        { full_path := full
          drive_absolute_path :=
            if pathType (full.drop 4) = dos_path_type.drive_absolute then some (full.drop 4) else none }
    | .unc_absolute => { full_path := full, drive_absolute_path := none }
    | _ => { full_path := [], drive_absolute_path := none }

/-- `NormalizePath` from the source: a null or empty path is normalized as
`"."`; `::{`-GUID and `blob:` inputs pass through verbatim; otherwise the
input is percent-decoded, stripped of a `file:`-prefix and canonicalized. -/
def NormalizePath (cwd path : List Char) : normalized_path :=
  if path ≠ [] then
    if IsColonColonGuid path then { full_path := path, drive_absolute_path := none }
    else if IsBlobColon path then { full_path := path, drive_absolute_path := none }
    else NormalizePathImpl cwd (StripFileColonSlash (UrlDecode path))
  else NormalizePathImpl cwd ['.']

/-- `vfs_folder_mapping` from the source: a real location paired with its
package-relative shadow name under `VFS`. -/
structure vfs_folder_mapping where
  path : List Char
  package_vfs_relative_path : List Char

/-- `path_redirection_spec` from the source.  The compiled `std::wregex`
together with `std::regex_match` (which demands a full match of its whole
argument) is modelled as a Boolean function of the candidate remainder. -/
structure path_redirection_spec where
  base_path : List Char
  pattern : List Char → Bool
  redirect_targetbase : List Char
  isExclusion : Bool
  isReadOnly : Bool

/-- The read-only identity facts and configuration the engine consumes
(the globals initialized by `InitializePaths`/`InitializeConfiguration`),
together with the OS facilities the per-call code consults:
the current directory for `GetFullPathName`, `impl::PathExists`, and the
directory bit of `impl::GetFileAttributes`. -/
structure FRFEnv where
  packageRootPath : List Char
  finalPackageRootPath : List Char
  redirectRootPath : List Char
  writablePackageRootPath : List Char
  packageFamilyName : List Char
  vfsFolderMappings : List vfs_folder_mapping
  redirectionSpecs : List path_redirection_spec
  cwd : List Char
  pathExists : List Char → Bool
  attrIsDirectory : List Char → Bool

/-- `g_packageVfsRootPath = g_packageRootPath / L"VFS"` from the source. -/
def packageVfsRootPath (env : FRFEnv) : List Char :=
  fsAppend env.packageRootPath "VFS".toList

/-- The mapping scan of `DeVirtualizePath`: find the first table entry
whose shadow name is a prefix of the package-relative remainder at a
directory boundary (a separator follows, or the remainder ends there);
rewrite to `mapping.path / remainder-after-shadow`. -/
def devirtLoop (p : normalized_path) (rel : List Char) :
    List vfs_folder_mapping → normalized_path
  | [] => p
  | m :: ms =>
    if path_relative_to rel m.package_vfs_relative_path then
      match rel.drop m.package_vfs_relative_path.length with
      | [] =>
          let full := fsAppend m.path []
          { full_path := full, drive_absolute_path := some full }
      | c :: cs =>
          if is_path_separator c then
            let full := fsAppend m.path cs
            { full_path := full, drive_absolute_path := some full }
          else devirtLoop p rel ms
    else devirtLoop p rel ms

/-- `DeVirtualizePath` from the source. -/
def DeVirtualizePath (env : FRFEnv) (p : normalized_path) : normalized_path :=
  match p.drive_absolute_path with
  | none => p
  | some dap =>
    if path_relative_to dap (packageVfsRootPath env) then
      match dap.drop (packageVfsRootPath env).length with
      | [] => p
      | c :: cs =>
          if is_path_separator c then devirtLoop p cs env.vfsFolderMappings else p
    else p

/-- The (reverse-order) mapping scan of `VirtualizePath`: the first entry
whose real path is a bare string prefix of the full path rewrites the path
under the package VFS root.  Note there is no directory-boundary check
here — only a leading separator of the remainder is skipped. -/
def virtLoop (env : FRFEnv) (p : normalized_path) :
    List vfs_folder_mapping → normalized_path
  | [] => p
  | m :: ms =>
    if path_relative_to p.full_path m.path then
      let rel0 := p.full_path.drop m.path.length
      let rel := match rel0 with
        | c :: cs => if is_path_separator c then cs else rel0
        | [] => rel0
      let full := fsAppend (fsAppend (packageVfsRootPath env) m.package_vfs_relative_path) rel
      { full_path := full, drive_absolute_path := some full }
    else virtLoop env p ms

/-- `VirtualizePath` from the source: a path whose drive-absolute view is
already under the package root is returned unchanged; otherwise the
mapping table is scanned in reverse order. -/
def VirtualizePath (env : FRFEnv) (p : normalized_path) : normalized_path :=
  if (match p.drive_absolute_path with
      | some dap => path_relative_to dap env.packageRootPath
      | none => false)
  then p
  else virtLoop env p env.vfsFolderMappings.reverse

/-- `_wcsicmp(a, b) == 0`: case-insensitive string equality. -/
def eqIC (a b : List Char) : Bool :=
  a.map Char.toLower = b.map Char.toLower

/-- Modelled from the spec: `psf::remove_trailing_path_separators`
(§4.4 — the destination root has trailing separators stripped). -/
def removeTrailingSeps (l : List Char) : List Char :=
  (l.reverse.dropWhile is_path_separator).reverse

/-- `std::wstring::find(needle) != npos`: substring containment — the
needle occurs at the current position or somewhere in the tail. -/
def containsSub : List Char → List Char → Bool
  | [], needle => needle.isEmpty
  | c :: t, needle => ((c :: t).take needle.length = needle) || containsSub t needle

/-- The chunking loop of `GenerateRedirectedPath` when
`ensureDirectoryStructure` is set: the relative path is re-appended chunk
by chunk, a chunk being one character followed by the run of
non-separators after it (a directory is created before each chunk; the
result of that `CreateDirectory` call is ignored by the source). -/
def genChunks : List Char → List Char
  | [] => []
  | c :: rest =>
      c :: (rest.takeWhile (fun d => !is_path_separator d) ++
        genChunks (rest.dropWhile (fun d => !is_path_separator d)))
  termination_by l => l.length
  decreasing_by
    rename_i rest
    simp only [List.length_cons]
    have := (List.dropWhile_suffix (l := rest) (fun d => !is_path_separator d)).sublist.length_le
    omega

/-- `GenerateRedirectedPath` from the source (filesystem side effects of
the directory-creation calls are not part of the returned value). -/
def GenerateRedirectedPath (relativePath : List Char) (ensureDirectoryStructure : Bool)
    (result : List Char) : List Char :=
  if ensureDirectoryStructure then result ++ genChunks relativePath
  else result ++ relativePath

/-- `RedirectedPath` from the source.  The base is `\\?\` plus the
destination target (the writable package root when the target equals it
case-insensitively).  The relative tail distinguishes the lowercased full
path containing the package root as a substring (in-package case, tail
taken after the package-root length) from everything else (drive-letter
`$`-escape case).  Both the existing-destination shortcut and the two
`GenerateRedirectedPath` branches return `basePath ++ relativePath`. -/
def RedirectedPath (env : FRFEnv) (deVirtualizedPath : normalized_path)
    (ensureDirectoryStructure : Bool) (destinationTargetBase : List Char) : List Char :=
  let basePath :=
    if eqIC destinationTargetBase env.writablePackageRootPath then
      "\\\\?\\".toList ++ env.writablePackageRootPath
    else
      "\\\\?\\".toList ++ removeTrailingSeps destinationTargetBase
  let deVirtualizedFullPath := deVirtualizedPath.full_path.map Char.toLower
  let relativePath :=
    if containsSub deVirtualizedFullPath env.packageRootPath then
      let lengthPackageRootPath :=
        if pathType deVirtualizedFullPath = dos_path_type.drive_absolute then
          env.packageRootPath.length
        else env.finalPackageRootPath.length
      if eqIC destinationTargetBase env.writablePackageRootPath then
        deVirtualizedPath.full_path.drop lengthPackageRootPath
      else
        "\\PackageCache\\".toList ++ env.packageFamilyName ++
          deVirtualizedPath.full_path.drop lengthPackageRootPath
    else
      let pre :=
        if eqIC destinationTargetBase env.redirectRootPath then ['\\']
        else "\\PackageCache\\".toList ++ env.packageFamilyName ++ "\\VFS\\PackageDrive".toList
      match deVirtualizedPath.drive_absolute_path with
      | some (d0 :: _ :: rest) => pre ++ '\\' :: d0 :: '$' :: rest
      | _ => pre
  if env.pathExists (basePath ++ relativePath) then basePath ++ relativePath
  else GenerateRedirectedPath relativePath ensureDirectoryStructure basePath

/-- The rule-matching loop of `ShouldRedirectImpl` (lines 963–1022): the
specs are scanned in configured order; a spec is examined further only
when its base path is a `path_relative_to` prefix of the candidate; the
remainder must start at a directory boundary (a separator, which is
skipped, or the end of the candidate), and the regex must match the whole
remainder; the first spec passing both tests is returned. -/
def ruleLoop : List path_redirection_spec → List Char → Option path_redirection_spec
  | [], _ => none
  | sp :: rest, vdap =>
    if path_relative_to vdap sp.base_path then
      match vdap.drop sp.base_path.length with
      | [] => if sp.pattern [] then some sp else ruleLoop rest vdap
      | c :: cs =>
        if is_path_separator c then
          if sp.pattern cs then some sp else ruleLoop rest vdap
        else ruleLoop rest vdap
    else ruleLoop rest vdap

/-- The matching test of one redirection spec as the spec describes it
(§4.3): the base path must be a case-insensitive path prefix of the
candidate ending at a directory boundary, and the pattern must accept the
entire remainder after the boundary separator. -/
def specMatches (vdap : List Char) (sp : path_redirection_spec) : Bool :=
  ((vdap.take sp.base_path.length).map Char.toLower = sp.base_path.map Char.toLower) &&
    (match vdap.drop sp.base_path.length with
     | [] => sp.pattern []
     | c :: cs => is_path_separator c && sp.pattern cs)

/-- `redirect_flags` from the source: the three independent caller bits. -/
structure redirect_flags where
  check_file_presence : Bool
  copy_file : Bool
  ensure_directory_structure : Bool
deriving DecidableEq

/-- `path_redirect_info` from the source. -/
structure path_redirect_info where
  should_redirect : Bool := false
  redirect_path : List Char := []
  shouldReadonly : Bool := false
deriving DecidableEq

/-- The filesystem side effects the copy-on-redirect block of
`ShouldRedirectImpl` issues: `CopyFileEx` (its constant flags include
`COPY_FILE_FAIL_IF_EXISTS`, recorded as the Boolean field) or
`CreateDirectoryEx`.  Their success or failure is only logged by the
source and feeds nothing else. -/
inductive FsEffect where
  | copyFileEx (src dst : List Char) (failIfExists : Bool)
  | createDirectoryEx (src dst : List Char)
deriving DecidableEq

/-- `ShouldRedirectImpl` from the source, after the null-pointer guard:
normalize; bail out without a drive-absolute view; devirtualize one copy
and virtualize a second normalization of the same input; run the rule
loop on the virtualized drive-absolute path; an exclusion match or no
match yields the default result; an inclusion match computes the
destination via `RedirectedPath`; the presence check may then retract the
decision; the copy-on-redirect block only issues filesystem effects. -/
def shouldRedirectCore (env : FRFEnv) (s : List Char) (flags : redirect_flags) :
    path_redirect_info × List FsEffect :=
  match (NormalizePath env.cwd s).drive_absolute_path with
  | none => ({}, [])
  | some _ =>
    let normalizedPath := DeVirtualizePath env (NormalizePath env.cwd s)
    let vfspath := VirtualizePath env (NormalizePath env.cwd s)
    let vdap := vfspath.drive_absolute_path.getD []
    let ndap := normalizedPath.drive_absolute_path.getD []
    match ruleLoop env.redirectionSpecs vdap with
    | none => ({}, [])
    | some spec =>
      if spec.isExclusion then ({}, [])
      else
        let dest := RedirectedPath env vfspath flags.ensure_directory_structure spec.redirect_targetbase
        if flags.check_file_presence && !env.pathExists dest && !env.pathExists vdap
            && !env.pathExists ndap then
          ({ should_redirect := false, redirect_path := [], shouldReadonly := spec.isReadOnly }, [])
        else
          ({ should_redirect := true, redirect_path := dest, shouldReadonly := spec.isReadOnly },
            if flags.copy_file && !env.pathExists dest then
              let copySource := if env.pathExists vdap then vdap else ndap
              if env.attrIsDirectory copySource then [FsEffect.createDirectoryEx copySource dest]
              else [FsEffect.copyFileEx copySource dest true]
            else [])

/-- `ShouldRedirect` from the source: a null path yields the default
result before any other work. -/
def ShouldRedirect (env : FRFEnv) (path : Option (List Char)) (flags : redirect_flags) :
    path_redirect_info × List FsEffect :=
  match path with
  | none => ({}, [])
  | some s => shouldRedirectCore env s flags

/-! ## Supporting lemmas -/

theorem path_relative_to_eq (b p : List Char) :
    path_relative_to p b =
      decide ((p.take b.length).map Char.toLower = b.map Char.toLower) := by
  induction b generalizing p with
  | nil => simp [path_relative_to]
  | cons x bs ih =>
    cases p with
    | nil => simp [path_relative_to]
    | cons c cs =>
      simp only [path_relative_to, path_compare, List.length_cons, List.take_succ_cons,
        List.map_cons, List.cons.injEq, ih]
      have : decide (x.toLower = c.toLower) = decide (c.toLower = x.toLower) := by
        simp [eq_comm]
      rw [this]
      simp

theorem ruleLoop_eq_find (specs : List path_redirection_spec) (vdap : List Char) :
    ruleLoop specs vdap = specs.find? (specMatches vdap) := by
  induction specs with
  | nil => rfl
  | cons sp rest ih =>
    have key : specMatches vdap sp =
        (path_relative_to vdap sp.base_path &&
          (match vdap.drop sp.base_path.length with
           | [] => sp.pattern []
           | c :: cs => is_path_separator c && sp.pattern cs)) := by
      unfold specMatches
      rw [path_relative_to_eq]
    rw [List.find?_cons]
    cases h1 : path_relative_to vdap sp.base_path with
    | false =>
      have hm : specMatches vdap sp = false := by rw [key, h1]; simp
      simp only [ruleLoop, h1, hm, ih]
      rfl
    | true =>
      cases h2 : vdap.drop sp.base_path.length with
      | nil =>
        cases h3 : sp.pattern [] with
        | false =>
          have hm : specMatches vdap sp = false := by rw [key, h1, h2, h3]; simp
          simp only [ruleLoop, h1, h2, h3, hm, ih]
          rfl
        | true =>
          have hm : specMatches vdap sp = true := by rw [key, h1, h2, h3]; simp
          simp only [ruleLoop, h1, h2, h3, hm, ih]
          rfl
      | cons c cs =>
        cases h4 : is_path_separator c with
        | false =>
          have hm : specMatches vdap sp = false := by rw [key, h1, h2]; simp [h4]
          simp only [ruleLoop, h1, h2, h4, hm, ih]
          rfl
        | true =>
          cases h5 : sp.pattern cs with
          | false =>
            have hm : specMatches vdap sp = false := by rw [key, h1, h2]; simp [h4, h5]
            simp only [ruleLoop, h1, h2, h4, h5, hm, ih]
            rfl
          | true =>
            have hm : specMatches vdap sp = true := by rw [key, h1, h2]; simp [h4, h5]
            simp only [ruleLoop, h1, h2, h4, h5, hm, ih]
            rfl

/-- A small concrete environment used by the evaluation witnesses and
counterexamples: a lowercased package root `c:\app` (the source lowercases
`g_packageRootPath` during initialization), the standard `Windows` VFS
mapping, and an initially empty rule list. -/
def sampleEnv : FRFEnv where
  packageRootPath := "c:\\app".toList
  finalPackageRootPath := "c:\\app".toList
  redirectRootPath := "c:\\rr".toList
  writablePackageRootPath := "c:\\wpr".toList
  packageFamilyName := "fam".toList
  vfsFolderMappings := [⟨"c:\\windows".toList, "Windows".toList⟩]
  redirectionSpecs := []
  cwd := "c:\\base".toList
  pathExists := fun _ => false
  attrIsDirectory := fun _ => false

/-- C1: the redirect decision is decided by the first configured spec whose
base path is a case-insensitive path prefix of the virtualized path at a
directory boundary and whose pattern accepts the entire remainder after the
boundary separator; evaluation stops there; an exclusion match and a
no-match both yield no redirect; an inclusion match yields a redirect
carrying the spec's target base and read-only flag; and a bare string
prefix without a directory boundary (base `C:\Foo` against `C:\Foobar\x`)
does not match. -/
theorem C1_first_matching_spec_decides (env : FRFEnv) (s vdap d : List Char)
    (flags : redirect_flags)
    (hdap : (NormalizePath env.cwd s).drive_absolute_path = some d)
    (hv : (VirtualizePath env (NormalizePath env.cwd s)).drive_absolute_path.getD [] = vdap)
    (hpres : flags.check_file_presence = false) :
    ruleLoop env.redirectionSpecs vdap = env.redirectionSpecs.find? (specMatches vdap)
    ∧ (env.redirectionSpecs.find? (specMatches vdap) = none →
        (ShouldRedirect env (some s) flags).1 = {})
    ∧ (∀ sp, env.redirectionSpecs.find? (specMatches vdap) = some sp → sp.isExclusion = true →
        (ShouldRedirect env (some s) flags).1 = {})
    ∧ (∀ sp, env.redirectionSpecs.find? (specMatches vdap) = some sp → sp.isExclusion = false →
        (ShouldRedirect env (some s) flags).1 =
          { should_redirect := true
            redirect_path := RedirectedPath env (VirtualizePath env (NormalizePath env.cwd s))
              flags.ensure_directory_structure sp.redirect_targetbase
            shouldReadonly := sp.isReadOnly })
    ∧ specMatches "C:\\Foobar\\x".toList
        { base_path := "C:\\Foo".toList, pattern := fun _ => true
          redirect_targetbase := [], isExclusion := false, isReadOnly := false } = false := by
  refine ⟨ruleLoop_eq_find _ _, ?_, ?_, ?_, by decide⟩
  · intro hnone
    simp only [ShouldRedirect, shouldRedirectCore, hdap, hv, ruleLoop_eq_find, hnone]
  · intro sp hfind hexcl
    simp only [ShouldRedirect, shouldRedirectCore, hdap, hv, ruleLoop_eq_find, hfind, hexcl,
      if_true]
  · intro sp hfind hincl
    simp only [ShouldRedirect, shouldRedirectCore, hdap, hv, ruleLoop_eq_find, hfind, hincl,
      hpres, Bool.false_and, Bool.if_false_left]
    simp

/-- The two-rule configuration of the spec's first-match example: an
exclusion for `a\cache.tmp` under `c:\x`, then a catch-all inclusion. -/
def envC1 : FRFEnv :=
  { sampleEnv with redirectionSpecs :=
      [ { base_path := "c:\\x".toList
          pattern := fun l => decide (l = "a\\cache.tmp".toList)
          redirect_targetbase := "c:\\wpr".toList, isExclusion := true, isReadOnly := false }
      , { base_path := "c:\\x".toList, pattern := fun _ => true
          redirect_targetbase := "c:\\wpr".toList, isExclusion := false
          isReadOnly := false } ] }

theorem C1_first_matching_spec_decides_witness :
    (ShouldRedirect envC1 (some "c:\\x\\a\\cache.tmp".toList) ⟨false, false, false⟩).1 = {} :=
  (C1_first_matching_spec_decides envC1 "c:\\x\\a\\cache.tmp".toList
    "c:\\x\\a\\cache.tmp".toList "c:\\x\\a\\cache.tmp".toList
    ⟨false, false, false⟩ rfl rfl rfl).2.2.1 _ rfl rfl

theorem normalize_empty_as_dot (cwd : List Char) :
    NormalizePath cwd [] = NormalizePath cwd ['.'] := rfl

/-- C10: a null path pointer makes `ShouldRedirect` return the default
no-redirect result immediately, independently of the environment, the
rules and the filesystem, while an empty but non-null string is normalized
as `"."` and runs through the same pipeline as the explicit input `"."`. -/
theorem C10_null_path_vs_empty_path :
    (∀ (env env' : FRFEnv) (flags flags' : redirect_flags),
        ShouldRedirect env none flags = ({}, [])
        ∧ ShouldRedirect env none flags = ShouldRedirect env' none flags')
    ∧ (∀ cwd : List Char, NormalizePath cwd [] = NormalizePathImpl cwd ['.'])
    ∧ (∀ (env : FRFEnv) (flags : redirect_flags),
        ShouldRedirect env (some []) flags = ShouldRedirect env (some ['.']) flags) := by
  refine ⟨fun env env' flags flags' => ⟨rfl, rfl⟩, fun cwd => rfl, fun env flags => ?_⟩
  simp only [ShouldRedirect]
  unfold shouldRedirectCore
  rw [normalize_empty_as_dot]

theorem guid_false_of_head (c : Char) (t : List Char) (hc : c ≠ ':') :
    IsColonColonGuid (c :: t) = false := by
  cases t with
  | nil => simp [IsColonColonGuid]
  | cons b t2 =>
    cases t2 with
    | nil => simp [IsColonColonGuid]
    | cons c3 t3 => simp [IsColonColonGuid, hc]

/-- C8: an input starting with the `::{` marker and longer than 39
characters, and an input starting with `blob:` or `BLOB:`, are passed
through normalization verbatim as `full_path` with no drive-absolute
form (no decoding or stripping is applied), and `ShouldRedirect`
consequently reports no redirect for them whatever the rules say. -/
theorem C8_guid_blob_passthrough (env : FRFEnv) (p : List Char) (flags : redirect_flags)
    (h : (39 < p.length ∧ p.take 3 = [':', ':', '\x7b'])
          ∨ p.take 5 = "blob:".toList ∨ p.take 5 = "BLOB:".toList) :
    NormalizePath env.cwd p = { full_path := p, drive_absolute_path := none }
    ∧ ShouldRedirect env (some p) flags = ({}, []) := by
  have hnorm : NormalizePath env.cwd p = { full_path := p, drive_absolute_path := none } := by
    rcases h with ⟨hlen, htake⟩ | hb | hb
    · match p, hlen, htake with
      | a :: b :: c :: rest, hlen2, htake2 =>
        have h3 : [a, b, c] = [':', ':', '\x7b'] := htake2
        have ha : a = ':' := by injection h3
        have hbc : [b, c] = [':', '\x7b'] := by injection h3
        have hb2 : b = ':' := by injection hbc
        have hcc : [c] = ['\x7b'] := by injection hbc
        have hc2 : c = '\x7b' := by injection hcc
        subst ha; subst hb2; subst hc2
        have hguid : IsColonColonGuid (':' :: ':' :: '\x7b' :: rest) = true := by
          simp only [List.length_cons] at hlen2
          simp [IsColonColonGuid, hlen2]
        simp [NormalizePath, hguid]
    · match p, hb with
      | c1 :: t, hb =>
        have hb' : c1 :: t.take 4 = ['b', 'l', 'o', 'b', ':'] := hb
        have hc1 : c1 = 'b' := by injection hb'
        have hguid : IsColonColonGuid (c1 :: t) = false :=
          guid_false_of_head c1 t (by rw [hc1]; decide)
        have hblob : IsBlobColon (c1 :: t) = true := by
          have h5 : (c1 :: t).take 5 = "blob:".toList := hb
          simp [IsBlobColon, h5]
        simp [NormalizePath, hguid, hblob]
    · match p, hb with
      | c1 :: t, hb =>
        have hb' : c1 :: t.take 4 = ['B', 'L', 'O', 'B', ':'] := hb
        have hc1 : c1 = 'B' := by injection hb'
        have hguid : IsColonColonGuid (c1 :: t) = false :=
          guid_false_of_head c1 t (by rw [hc1]; decide)
        have hblob : IsBlobColon (c1 :: t) = true := by
          have h5 : (c1 :: t).take 5 = "BLOB:".toList := hb
          simp [IsBlobColon, h5]
        simp [NormalizePath, hguid, hblob]
  refine ⟨hnorm, ?_⟩
  simp only [ShouldRedirect]
  unfold shouldRedirectCore
  rw [hnorm]

theorem C8_guid_blob_passthrough_witness :
    NormalizePath sampleEnv.cwd "::\x7b20D04FE0-3AEA-1069-A2D8-08002B30309D\x7d".toList
        = { full_path := "::\x7b20D04FE0-3AEA-1069-A2D8-08002B30309D\x7d".toList
            drive_absolute_path := none }
    ∧ ShouldRedirect sampleEnv
        (some "::\x7b20D04FE0-3AEA-1069-A2D8-08002B30309D\x7d".toList)
        ⟨false, false, false⟩ = ({}, []) :=
  C8_guid_blob_passthrough sampleEnv _ _ (Or.inl ⟨by decide, by decide⟩)

/-- C9: an input whose decoded, `file:`-stripped form is UNC-absolute
gets its canonicalized full path but no drive-absolute form from
normalization, and `ShouldRedirect` therefore never redirects it. -/
theorem C9_unc_not_redirected (env : FRFEnv) (p : List Char) (flags : redirect_flags)
    (hne : p ≠ [])
    (hg : IsColonColonGuid p = false)
    (hb : IsBlobColon p = false)
    (hunc : pathType (StripFileColonSlash (UrlDecode p)) = dos_path_type.unc_absolute) :
    (NormalizePath env.cwd p).full_path = fullPath env.cwd (StripFileColonSlash (UrlDecode p))
    ∧ (NormalizePath env.cwd p).drive_absolute_path = none
    ∧ ShouldRedirect env (some p) flags = ({}, []) := by
  have hfull : fullPath env.cwd (StripFileColonSlash (UrlDecode p))
      = StripFileColonSlash (UrlDecode p) := by
    unfold fullPath
    rw [hunc]
  have hnorm : NormalizePath env.cwd p =
      { full_path := fullPath env.cwd (StripFileColonSlash (UrlDecode p))
        drive_absolute_path := none } := by
    simp only [NormalizePath, hne, hg, hb, if_true, if_false, ne_eq, not_false_iff]
    unfold NormalizePathImpl
    rw [hunc]
    simp only [reduceCtorEq, if_false]
    rw [hfull, hunc]
  refine ⟨by rw [hnorm], by rw [hnorm], ?_⟩
  simp only [ShouldRedirect]
  unfold shouldRedirectCore
  rw [hnorm]

theorem C9_unc_not_redirected_witness :
    (NormalizePath sampleEnv.cwd "\\\\srv\\share\\a.txt".toList).full_path
        = fullPath sampleEnv.cwd (StripFileColonSlash (UrlDecode "\\\\srv\\share\\a.txt".toList))
    ∧ (NormalizePath sampleEnv.cwd "\\\\srv\\share\\a.txt".toList).drive_absolute_path = none
    ∧ ShouldRedirect sampleEnv (some "\\\\srv\\share\\a.txt".toList)
        ⟨false, false, false⟩ = ({}, []) :=
  C9_unc_not_redirected sampleEnv _ _ (by decide) (by decide) (by decide) (by decide)

theorem path_relative_to_append (p a b : List Char)
    (h : path_relative_to p (a ++ b) = true) : path_relative_to p a = true := by
  induction a generalizing p with
  | nil => cases p <;> rfl
  | cons x a' ih =>
    cases p with
    | nil => exact absurd h (by simp [path_relative_to])
    | cons c cs =>
      simp only [List.cons_append, path_relative_to, Bool.and_eq_true] at h ⊢
      exact ⟨h.1, ih cs h.2⟩

theorem fsAppend_parts (a b : List Char) : ∃ t, fsAppend a b = a ++ t := by
  unfold fsAppend
  by_cases h : (a.isEmpty || endsSep a || startsSep b : Bool)
  · exact ⟨b, by simp [h]⟩
  · exact ⟨'\\' :: b, by simp [h]⟩

theorem virtLoop_no_match (env : FRFEnv) (p : normalized_path)
    (ms : List vfs_folder_mapping)
    (h : ∀ m ∈ ms, path_relative_to p.full_path m.path = false) :
    virtLoop env p ms = p := by
  induction ms with
  | nil => rfl
  | cons m ms' ih =>
    have hm := h m (by simp)
    simp only [virtLoop, hm]
    exact ih (fun m' hm' => h m' (by simp [hm']))

/-- C2 (amended): `Virtualize` returns its input unchanged when the
drive-absolute view already lies under the package root; and
`DeVirtualize(Virtualize(p)) = p` holds for a `p` outside the package
root provided no VFS mapping's real path matches `p.full_path` as a bare
string prefix (when one does, `Virtualize` rewrites without checking a
directory boundary and the round trip can alter the path). -/
theorem C2_virtualize_roundtrip (env : FRFEnv) (p : normalized_path) (d : List Char)
    (hdap : p.drive_absolute_path = some d) :
    (path_relative_to d env.packageRootPath = true → VirtualizePath env p = p)
    ∧ (path_relative_to d env.packageRootPath = false →
        (∀ m ∈ env.vfsFolderMappings, path_relative_to p.full_path m.path = false) →
        DeVirtualizePath env (VirtualizePath env p) = p) := by
  constructor
  · intro hroot
    simp [VirtualizePath, hdap, hroot]
  · intro hroot hmaps
    have hvirt : VirtualizePath env p = p := by
      simp only [VirtualizePath, hdap, hroot]
      exact virtLoop_no_match env p _ (fun m hm => hmaps m (List.mem_reverse.mp hm))
    rw [hvirt]
    have hvfs : path_relative_to d (packageVfsRootPath env) = false := by
      obtain ⟨t, ht⟩ := fsAppend_parts env.packageRootPath "VFS".toList
      unfold packageVfsRootPath
      rw [ht]
      cases hq : path_relative_to d (env.packageRootPath ++ t) with
      | false => rfl
      | true => exact absurd (path_relative_to_append d _ t hq) (by simp [hroot])
    simp [DeVirtualizePath, hdap, hvfs]

/-- C2 counterexample: with the package root `c:\app` and the mapping
`c:\windows → Windows`, the out-of-package path `c:\windowsfoo\x` (which
matches the mapping's real path only as a bare string prefix, not at a
directory boundary) does not survive the round trip:
`DeVirtualize(Virtualize(p))` becomes `c:\windows\foo\x`. -/
theorem C2_virtualize_roundtrip_counterexample :
    path_relative_to "c:\\windowsfoo\\x".toList sampleEnv.packageRootPath = false
    ∧ DeVirtualizePath sampleEnv (VirtualizePath sampleEnv
        { full_path := "c:\\windowsfoo\\x".toList
          drive_absolute_path := some "c:\\windowsfoo\\x".toList })
        ≠ { full_path := "c:\\windowsfoo\\x".toList
            drive_absolute_path := some "c:\\windowsfoo\\x".toList }
    ∧ (DeVirtualizePath sampleEnv (VirtualizePath sampleEnv
        { full_path := "c:\\windowsfoo\\x".toList
          drive_absolute_path := some "c:\\windowsfoo\\x".toList })).full_path
        = "c:\\windows\\foo\\x".toList :=
  ⟨by decide, by decide, by decide⟩

theorem C2_virtualize_roundtrip_witness :
    VirtualizePath sampleEnv
        { full_path := "c:\\app\\data\\f".toList
          drive_absolute_path := some "c:\\app\\data\\f".toList }
      = { full_path := "c:\\app\\data\\f".toList
          drive_absolute_path := some "c:\\app\\data\\f".toList } :=
  (C2_virtualize_roundtrip sampleEnv _ "c:\\app\\data\\f".toList rfl).1 (by decide)

theorem genChunks_id (l : List Char) : genChunks l = l := by
  induction l using genChunks.induct with
  | case1 => simp [genChunks]
  | case2 c rest ih =>
    rw [genChunks, ih, List.takeWhile_append_dropWhile]

theorem GenerateRedirectedPath_eq (rel : List Char) (ens : Bool) (result : List Char) :
    GenerateRedirectedPath rel ens result = result ++ rel := by
  unfold GenerateRedirectedPath
  cases ens <;> simp [genChunks_id]

theorem containsSub_nil_needle (hay : List Char) : containsSub hay [] = true := by
  cases hay <;> simp [containsSub]

theorem containsSub_here (needle v : List Char) : containsSub (needle ++ v) needle = true := by
  cases needle with
  | nil => simpa using containsSub_nil_needle v
  | cons a t => simp [containsSub, List.take_left]

theorem containsSub_cons (c : Char) (hay needle : List Char)
    (h : containsSub hay needle = true) : containsSub (c :: hay) needle = true := by
  simp [containsSub, h]

theorem containsSub_of_parts (u needle v : List Char) :
    containsSub (u ++ needle ++ v) needle = true := by
  induction u with
  | nil => simpa using containsSub_here needle v
  | cons c u' ih => simpa using containsSub_cons c _ needle (by simpa using ih)

/-- C4 (amended): `RedirectedPath` applies the in-package mapping (Case A)
exactly when the lowercased full path contains the (lowercased) package
root as a substring — a condition implied by, but weaker than, lying under
the package root.  The tail is the full path with its first
`|package_root|` characters removed (`|final_package_root|` when the
lowered path is not drive-absolute); the default writable-root target
appends the tail directly, a caller-configured alternate target nests it
under `\PackageCache\<package_family_name>`. -/
theorem C4_redirectedPath_in_package (env : FRFEnv) (dv : normalized_path)
    (ens : Bool) (target : List Char) :
    (containsSub (dv.full_path.map Char.toLower) env.packageRootPath = true →
      RedirectedPath env dv ens target =
        (if eqIC target env.writablePackageRootPath then
            "\\\\?\\".toList ++ env.writablePackageRootPath
          else "\\\\?\\".toList ++ removeTrailingSeps target)
        ++ (if eqIC target env.writablePackageRootPath then
              dv.full_path.drop
                (if pathType (dv.full_path.map Char.toLower) = dos_path_type.drive_absolute
                 then env.packageRootPath.length else env.finalPackageRootPath.length)
            else
              "\\PackageCache\\".toList ++ env.packageFamilyName ++
                dv.full_path.drop
                  (if pathType (dv.full_path.map Char.toLower) = dos_path_type.drive_absolute
                   then env.packageRootPath.length else env.finalPackageRootPath.length)))
    ∧ (∀ d pre0,
        env.packageRootPath.map Char.toLower = env.packageRootPath →
        dv.drive_absolute_path = some d →
        dv.full_path = pre0 ++ d →
        path_relative_to d env.packageRootPath = true →
        containsSub (dv.full_path.map Char.toLower) env.packageRootPath = true) := by
  constructor
  · intro hcont
    unfold RedirectedPath
    simp only [hcont, if_true]
    cases hex : env.pathExists _ with
    | true => simp
    | false => simp [GenerateRedirectedPath_eq]
  · intro d pre0 hlow hdap hsplit hd
    have htake : (d.take env.packageRootPath.length).map Char.toLower
        = env.packageRootPath := by
      rw [path_relative_to_eq] at hd
      simpa [hlow] using of_decide_eq_true hd
    have hd2 : d = d.take env.packageRootPath.length ++ d.drop env.packageRootPath.length := by
      rw [List.take_append_drop]
    rw [hsplit, hd2, List.map_append, List.map_append, htake, ← List.append_assoc]
    exact containsSub_of_parts _ _ _

theorem C4_redirectedPath_in_package_witness :
    RedirectedPath sampleEnv
        { full_path := "c:\\app\\f.txt".toList
          drive_absolute_path := some "c:\\app\\f.txt".toList }
        false sampleEnv.writablePackageRootPath
      = "\\\\?\\c:\\wpr\\f.txt".toList :=
  ((C4_redirectedPath_in_package sampleEnv _ false _).1 (by decide)).trans (by decide)

/-- C4 counterexample: the source decides Case A by substring containment
of the package root in the lowercased full path, not by a prefix test, so
a source that does not lie under the package root (here `d:\zc:\app\t.txt`,
which merely contains `c:\app`) still gets the in-package tail — the
full path with the first `|package_root|` characters removed — rather
than the drive-`$` escape of Case B. -/
theorem C4_redirectedPath_in_package_counterexample :
    path_relative_to "d:\\zc:\\app\\t.txt".toList sampleEnv.packageRootPath = false
    ∧ RedirectedPath sampleEnv
        { full_path := "d:\\zc:\\app\\t.txt".toList
          drive_absolute_path := some "d:\\zc:\\app\\t.txt".toList }
        false sampleEnv.writablePackageRootPath
        = "\\\\?\\c:\\wpr\\app\\t.txt".toList
    ∧ "\\\\?\\c:\\wpr\\app\\t.txt".toList
        ≠ "\\\\?\\c:\\wpr\\PackageCache\\fam\\VFS\\PackageDrive\\d$\\zc:\\app\\t.txt".toList :=
  ⟨by decide, by decide, by decide⟩

/-- C5 (amended): for a source whose lowercased full path does not contain
the package root, the tail keeps the drive letter and replaces its colon
with `$`, but it carries one more leading separator than the claim states:
with the default redirect-root target the tail is `\` followed by
`\<drive>$<rest>` (so the destination contains a doubled separator), and
with any other target it is `\PackageCache\<family>\VFS\PackageDrive`
followed by `\<drive>$<rest>`. -/
theorem C5_redirectedPath_drive_escape (env : FRFEnv) (dv : normalized_path)
    (ens : Bool) (target : List Char) (d0 d1 : Char) (rest : List Char)
    (hdap : dv.drive_absolute_path = some (d0 :: d1 :: rest))
    (hcont : containsSub (dv.full_path.map Char.toLower) env.packageRootPath = false) :
    RedirectedPath env dv ens target =
      (if eqIC target env.writablePackageRootPath then
          "\\\\?\\".toList ++ env.writablePackageRootPath
        else "\\\\?\\".toList ++ removeTrailingSeps target)
      ++ (if eqIC target env.redirectRootPath then ['\\']
          else "\\PackageCache\\".toList ++ env.packageFamilyName
            ++ "\\VFS\\PackageDrive".toList)
      ++ '\\' :: d0 :: '$' :: rest := by
  unfold RedirectedPath
  simp only [hcont, hdap, if_false, Bool.false_eq_true]
  cases hex : env.pathExists _ with
  | true => simp
  | false => simp [GenerateRedirectedPath_eq]

theorem C5_redirectedPath_drive_escape_witness :
    RedirectedPath sampleEnv
        { full_path := "D:\\Users\\me\\file.txt".toList
          drive_absolute_path := some "D:\\Users\\me\\file.txt".toList }
        false sampleEnv.redirectRootPath
      = "\\\\?\\c:\\rr\\\\D$\\Users\\me\\file.txt".toList :=
  (C5_redirectedPath_drive_escape sampleEnv _ false _ 'D' ':'
    "\\Users\\me\\file.txt".toList rfl (by decide)).trans (by decide)

/-- C5 counterexample: with the default redirect-root target the computed
destination for `D:\Users\me\file.txt` is
`\\?\c:\rr` + `\\D$\Users\me\file.txt` — the tail starts with a doubled
separator, not the single `\D$\...` of the claim. -/
theorem C5_redirectedPath_drive_escape_counterexample :
    RedirectedPath sampleEnv
        { full_path := "D:\\Users\\me\\file.txt".toList
          drive_absolute_path := some "D:\\Users\\me\\file.txt".toList }
        false sampleEnv.redirectRootPath
      = "\\\\?\\c:\\rr".toList ++ "\\\\D$\\Users\\me\\file.txt".toList
    ∧ "\\\\?\\c:\\rr".toList ++ "\\\\D$\\Users\\me\\file.txt".toList
      ≠ "\\\\?\\c:\\rr".toList ++ "\\D$\\Users\\me\\file.txt".toList :=
  ⟨by decide, by decide⟩

/-- C6: with the presence-check flag set and an inclusion rule matched,
the decision is retracted — no redirect and an empty redirect path — if
and only if none of the computed destination, the virtualized (VFS-form)
path and the devirtualized path exists; when at least one exists the
redirect decision stands with the computed destination. -/
theorem C6_presence_check_retraction (env : FRFEnv) (s d vdap ndap dest : List Char)
    (sp : path_redirection_spec) (fc fe : Bool)
    (hdap : (NormalizePath env.cwd s).drive_absolute_path = some d)
    (hv : (VirtualizePath env (NormalizePath env.cwd s)).drive_absolute_path.getD [] = vdap)
    (hn : (DeVirtualizePath env (NormalizePath env.cwd s)).drive_absolute_path.getD [] = ndap)
    (hrule : ruleLoop env.redirectionSpecs vdap = some sp)
    (hincl : sp.isExclusion = false)
    (hdest : RedirectedPath env (VirtualizePath env (NormalizePath env.cwd s)) fe
        sp.redirect_targetbase = dest) :
    (((ShouldRedirect env (some s) ⟨true, fc, fe⟩).1.should_redirect = false
        ∧ (ShouldRedirect env (some s) ⟨true, fc, fe⟩).1.redirect_path = [])
      ↔ (env.pathExists dest = false ∧ env.pathExists vdap = false
          ∧ env.pathExists ndap = false))
    ∧ (env.pathExists dest = true ∨ env.pathExists vdap = true ∨ env.pathExists ndap = true →
        (ShouldRedirect env (some s) ⟨true, fc, fe⟩).1
          = { should_redirect := true, redirect_path := dest
              shouldReadonly := sp.isReadOnly }) := by
  simp only [ShouldRedirect]
  unfold shouldRedirectCore
  rw [hdap]
  simp only [hv, hn, hrule, hincl, hdest]
  cases h1 : env.pathExists dest <;> cases h2 : env.pathExists vdap <;>
    cases h3 : env.pathExists ndap <;> simp

/-- The single-inclusion-rule configuration used by the presence-check and
copy-on-redirect witnesses: everything under the package root `c:\app`
redirects to the writable root. -/
def envIncl : FRFEnv :=
  { sampleEnv with redirectionSpecs :=
      [ { base_path := "c:\\app".toList, pattern := fun _ => true
          redirect_targetbase := "c:\\wpr".toList, isExclusion := false
          isReadOnly := false } ] }

theorem C6_presence_check_retraction_witness :
    (ShouldRedirect envIncl (some "c:\\app\\f.txt".toList) ⟨true, false, false⟩).1.should_redirect
        = false
    ∧ (ShouldRedirect envIncl (some "c:\\app\\f.txt".toList)
        ⟨true, false, false⟩).1.redirect_path = [] :=
  (C6_presence_check_retraction envIncl "c:\\app\\f.txt".toList "c:\\app\\f.txt".toList
    "c:\\app\\f.txt".toList "c:\\app\\f.txt".toList "\\\\?\\c:\\wpr\\f.txt".toList
    _ false false rfl rfl rfl rfl rfl rfl).1.mpr ⟨rfl, rfl, rfl⟩

/-- C7: the copy-on-redirect flag never changes the returned decision —
the caller receives the same `path_redirect_info` with or without it, and
without it no filesystem effect is issued.  When it is set and the
decision stands, the copy block issues no effect if the destination
already exists; otherwise it issues exactly one effect whose source
prefers the VFS-form path when that exists (else the devirtualized path):
`CreateDirectoryEx` when the source carries the directory attribute, else
`CopyFileEx` with its fail-if-exists flag set (no silent overwrite).
Effect outcomes feed nothing: the environment records no copy result, so
any failure is invisible in the returned decision. -/
theorem C7_copy_on_redirect (env : FRFEnv) (s d vdap ndap dest : List Char)
    (sp : path_redirection_spec) (fp fe : Bool)
    (hdap : (NormalizePath env.cwd s).drive_absolute_path = some d)
    (hv : (VirtualizePath env (NormalizePath env.cwd s)).drive_absolute_path.getD [] = vdap)
    (hn : (DeVirtualizePath env (NormalizePath env.cwd s)).drive_absolute_path.getD [] = ndap)
    (hrule : ruleLoop env.redirectionSpecs vdap = some sp)
    (hincl : sp.isExclusion = false)
    (hdest : RedirectedPath env (VirtualizePath env (NormalizePath env.cwd s)) fe
        sp.redirect_targetbase = dest)
    (hsurv : fp = false ∨ env.pathExists dest = true ∨ env.pathExists vdap = true
        ∨ env.pathExists ndap = true) :
    (ShouldRedirect env (some s) ⟨fp, true, fe⟩).1
        = (ShouldRedirect env (some s) ⟨fp, false, fe⟩).1
    ∧ (ShouldRedirect env (some s) ⟨fp, false, fe⟩).2 = []
    ∧ (ShouldRedirect env (some s) ⟨fp, true, fe⟩).1
        = { should_redirect := true, redirect_path := dest, shouldReadonly := sp.isReadOnly }
    ∧ (ShouldRedirect env (some s) ⟨fp, true, fe⟩).2
        = (if env.pathExists dest then []
           else
             [if env.attrIsDirectory (if env.pathExists vdap then vdap else ndap) then
                FsEffect.createDirectoryEx (if env.pathExists vdap then vdap else ndap) dest
              else
                FsEffect.copyFileEx (if env.pathExists vdap then vdap else ndap) dest true]) := by
  simp only [ShouldRedirect]
  unfold shouldRedirectCore
  rw [hdap]
  simp only [hv, hn, hrule, hincl, hdest]
  have hcond : (fp && !env.pathExists dest && !env.pathExists vdap && !env.pathExists ndap)
      = false := by
    rcases hsurv with h | h | h | h <;> simp [h]
  simp only [hcond]
  cases h1 : env.pathExists dest <;> cases h2 : env.pathExists vdap <;>
    cases h3 : env.attrIsDirectory (if env.pathExists vdap then vdap else ndap) <;>
      simp_all

theorem C7_copy_on_redirect_witness :
    (ShouldRedirect envIncl (some "c:\\app\\f.txt".toList) ⟨false, true, false⟩).2
      = [FsEffect.copyFileEx "c:\\app\\f.txt".toList "\\\\?\\c:\\wpr\\f.txt".toList true] :=
  ((C7_copy_on_redirect envIncl "c:\\app\\f.txt".toList "c:\\app\\f.txt".toList
    "c:\\app\\f.txt".toList "c:\\app\\f.txt".toList "\\\\?\\c:\\wpr\\f.txt".toList
    _ false false rfl rfl rfl rfl rfl rfl (Or.inl rfl)).2.2.2).trans (by decide)

/-! ## Segment lemmas for the canonicalization model -/

theorem splitSegs_sep_free (l : List Char) :
    ∀ x ∈ splitSegs l, ∀ c ∈ x, is_path_separator c = false := by
  induction l with
  | nil =>
    intro x hx c hc
    simp only [splitSegs, List.mem_singleton] at hx
    subst hx
    simp at hc
  | cons a rest ih =>
    intro x hx c hc
    cases ha : is_path_separator a with
    | true =>
      simp only [splitSegs, ha, if_true] at hx
      rcases List.mem_cons.mp hx with rfl | hx2
      · simp at hc
      · exact ih x hx2 c hc
    | false =>
      cases hsp : splitSegs rest with
      | nil =>
        simp only [splitSegs, ha, hsp, Bool.false_eq_true, if_false, List.mem_singleton] at hx
        subst hx
        rcases List.mem_singleton.mp hc with rfl
        exact ha
      | cons s ss =>
        simp only [splitSegs, ha, hsp, Bool.false_eq_true, if_false] at hx
        rcases List.mem_cons.mp hx with rfl | hx2
        · rcases List.mem_cons.mp hc with rfl | hc2
          · exact ha
          · exact ih s (by rw [hsp]; exact List.mem_cons_self s ss) c hc2
        · exact ih x (by rw [hsp]; exact List.mem_cons_of_mem s hx2) c hc

theorem splitSegs_append_free (s : List Char) (hs : ∀ c ∈ s, is_path_separator c = false)
    (t : List Char) (g : List Char) (gs : List (List Char)) (ht : splitSegs t = g :: gs) :
    splitSegs (s ++ t) = (s ++ g) :: gs := by
  induction s with
  | nil => simpa using ht
  | cons c s' ih =>
    have hc : is_path_separator c = false := hs c (by simp)
    have ih2 := ih (fun c' hc' => hs c' (by simp [hc']))
    simp only [List.cons_append, splitSegs, hc, Bool.false_eq_true, if_false, List.append_eq]
    rw [ih2]

theorem splitSegs_joinSegs (segs : List (List Char)) (hne : segs ≠ [])
    (hgood : ∀ s ∈ segs, s ≠ [] ∧ ∀ c ∈ s, is_path_separator c = false)
    (t : List Char) (gs : List (List Char)) (ht : splitSegs t = [] :: gs) :
    splitSegs (joinSegs segs ++ t) = segs ++ gs := by
  induction segs with
  | nil => exact absurd rfl hne
  | cons s1 srest ih =>
    cases srest with
    | nil =>
      have := splitSegs_append_free s1 (hgood s1 (by simp)).2 t [] gs ht
      simpa [joinSegs] using this
    | cons s2 srest2 =>
      have hrest := ih (by simp) (fun s hmem => hgood s (List.mem_cons_of_mem _ hmem))
      have hsep : splitSegs ('\\' :: (joinSegs (s2 :: srest2) ++ t))
          = [] :: splitSegs (joinSegs (s2 :: srest2) ++ t) := rfl
      have hkey := splitSegs_append_free s1 (hgood s1 (by simp)).2
        ('\\' :: (joinSegs (s2 :: srest2) ++ t)) [] (splitSegs (joinSegs (s2 :: srest2) ++ t))
        hsep
      have hshape : joinSegs (s1 :: s2 :: srest2) ++ t
          = s1 ++ ('\\' :: (joinSegs (s2 :: srest2) ++ t)) := by
        show (s1 ++ ('\\' :: joinSegs (s2 :: srest2))) ++ t = _
        rw [List.append_assoc]
        rfl
      rw [hshape, hkey, hrest]
      simp

theorem normSegsAux_skip_all (r acc : List (List Char)) :
    (∀ s ∈ r, s = []) → normSegsAux acc r = acc.reverse := by
  induction r generalizing acc with
  | nil => intro _; rfl
  | cons s r' ih =>
    intro h
    have hs : s = [] := h s (by simp)
    simp only [normSegsAux, hs]
    exact ih acc (fun s' hs' => h s' (by simp [hs']))

theorem normSegsAux_push (m : List (List Char))
    (hm : ∀ s ∈ m, s ≠ [] ∧ s ≠ ['.'] ∧ s ≠ ['.', '.']) :
    ∀ (r acc : List (List Char)),
      normSegsAux acc (m ++ r) = normSegsAux (m.reverse ++ acc) r := by
  induction m with
  | nil => intro r acc; rfl
  | cons s m' ih =>
    intro r acc
    obtain ⟨h1, h2, h3⟩ := hm s (by simp)
    have : normSegsAux acc ((s :: m') ++ r) = normSegsAux (s :: acc) (m' ++ r) := by
      simp only [List.cons_append, normSegsAux, h1, h2, h3]
      simp [h1, h2, h3]
    rw [this, ih (fun x hx => hm x (List.mem_cons_of_mem _ hx)) r (s :: acc)]
    simp

theorem normSegs_fix (m : List (List Char))
    (hm : ∀ s ∈ m, s ≠ [] ∧ s ≠ ['.'] ∧ s ≠ ['.', '.']) :
    normSegs m = m := by
  have := normSegsAux_push m hm [] []
  simpa [normSegs, normSegsAux] using this

theorem normSegs_fix_trailing (m : List (List Char))
    (hm : ∀ s ∈ m, s ≠ [] ∧ s ≠ ['.'] ∧ s ≠ ['.', '.']) :
    normSegs (m ++ [[]]) = m := by
  have := normSegsAux_push m hm [[]] []
  simp only [normSegs, this]
  have := normSegsAux_skip_all [[]] m.reverse (by simp)
  simpa using this

theorem normSegsAux_mem (m : List (List Char)) :
    ∀ (acc : List (List Char)) (x : List Char), x ∈ normSegsAux acc m →
      x ∈ acc ∨ (x ∈ m ∧ x ≠ [] ∧ x ≠ ['.'] ∧ x ≠ ['.', '.']) := by
  induction m with
  | nil =>
    intro acc x hx
    simp only [normSegsAux, List.mem_reverse] at hx
    exact Or.inl hx
  | cons s m' ih =>
    intro acc x hx
    by_cases h1 : s = [] ∨ s = ['.']
    · have : normSegsAux acc (s :: m') = normSegsAux acc m' := by
        simp only [normSegsAux]
        rcases h1 with rfl | rfl <;> simp
      rw [this] at hx
      rcases ih acc x hx with h | ⟨hmem, hg⟩
      · exact Or.inl h
      · exact Or.inr ⟨List.mem_cons_of_mem _ hmem, hg⟩
    · by_cases h2 : s = ['.', '.']
      · have : normSegsAux acc (s :: m') = normSegsAux (acc.drop 1) m' := by
          simp only [normSegsAux]
          rcases not_or.mp h1 with ⟨h1a, h1b⟩
          simp [h1a, h1b, h2]
        rw [this] at hx
        rcases ih (acc.drop 1) x hx with h | ⟨hmem, hg⟩
        · exact Or.inl ((List.drop_subset 1 acc) h)
        · exact Or.inr ⟨List.mem_cons_of_mem _ hmem, hg⟩
      · rcases not_or.mp h1 with ⟨h1a, h1b⟩
        have : normSegsAux acc (s :: m') = normSegsAux (s :: acc) m' := by
          simp only [normSegsAux]
          simp [h1a, h1b, h2]
        rw [this] at hx
        rcases ih (s :: acc) x hx with h | ⟨hmem, hg⟩
        · rcases List.mem_cons.mp h with rfl | h
          · exact Or.inr ⟨by simp, h1a, h1b, h2⟩
          · exact Or.inl h
        · exact Or.inr ⟨List.mem_cons_of_mem _ hmem, hg⟩

theorem normSegs_splitSegs_good (l : List Char) :
    ∀ x ∈ normSegs (splitSegs l),
      (x ≠ [] ∧ ∀ c ∈ x, is_path_separator c = false)
        ∧ x ≠ ['.'] ∧ x ≠ ['.', '.'] := by
  intro x hx
  rcases normSegsAux_mem (splitSegs l) [] x hx with h | ⟨hmem, h1, h2, h3⟩
  · simp at h
  · exact ⟨⟨h1, splitSegs_sep_free l x hmem⟩, h2, h3⟩

theorem joinSegs_ne_nil (s1 : List Char) (srest : List (List Char)) (h : s1 ≠ []) :
    joinSegs (s1 :: srest) ≠ [] := by
  cases srest with
  | nil => simpa [joinSegs] using h
  | cons s2 r => simp [joinSegs, h]

theorem joinSegs_getLast (segs : List (List Char)) (hne : segs ≠ [])
    (hgood : ∀ s ∈ segs, s ≠ []) :
    ∃ c s, s ∈ segs ∧ (joinSegs segs).getLast? = some c ∧ c ∈ s := by
  induction segs with
  | nil => exact absurd rfl hne
  | cons s1 srest ih =>
    cases srest with
    | nil =>
      have h1 : s1 ≠ [] := hgood s1 (by simp)
      refine ⟨s1.getLast h1, s1, by simp, ?_, List.getLast_mem h1⟩
      simp [joinSegs, List.getLast?_eq_getLast s1 h1]
    | cons s2 srest2 =>
      obtain ⟨c, s, hmem, hlast, hcs⟩ :=
        ih (by simp) (fun s hs => hgood s (List.mem_cons_of_mem _ hs))
      refine ⟨c, s, List.mem_cons_of_mem _ hmem, ?_, hcs⟩
      have hjoin : joinSegs (s1 :: s2 :: srest2) = s1 ++ '\\' :: joinSegs (s2 :: srest2) := rfl
      have hne2 : '\\' :: joinSegs (s2 :: srest2) ≠ [] := by simp
      rw [hjoin, List.getLast?_append_of_ne_nil _ hne2]
      have hne3 : joinSegs (s2 :: srest2) ≠ [] :=
        joinSegs_ne_nil s2 srest2 (hgood s2 (by simp))
      have : '\\' :: joinSegs (s2 :: srest2) = ['\\'] ++ joinSegs (s2 :: srest2) := rfl
      rw [this, List.getLast?_append_of_ne_nil _ hne3]
      exact hlast

theorem endsSep_append (a b : List Char) (h : b ≠ []) : endsSep (a ++ b) = endsSep b := by
  unfold endsSep
  rw [List.getLast?_append_of_ne_nil _ h]

theorem endsSep_concat_sep (l : List Char) : endsSep (l ++ ['\\']) = true := by
  rw [endsSep_append l ['\\'] (by simp)]
  rfl

theorem canonDrive_cons2 (x0 x1 : Char) (xr : List Char) :
    canonDrive (x0 :: x1 :: xr)
      = x0 :: x1 :: '\\' :: (joinSegs (normSegs (splitSegs (xr.drop 1)))
          ++ (if endsSep (x0 :: x1 :: xr)
                && !(normSegs (splitSegs (xr.drop 1))).isEmpty then ['\\'] else [])) := rfl

theorem canonDrive_fix2 (x0 x1 : Char) (xr : List Char) :
    canonDrive (canonDrive (x0 :: x1 :: xr)) = canonDrive (x0 :: x1 :: xr) := by
  have hgood := normSegs_splitSegs_good (xr.drop 1)
  rw [canonDrive_cons2 x0 x1 xr]
  cases hs : normSegs (splitSegs (xr.drop 1)) with
  | nil =>
    simp only [hs, joinSegs, List.isEmpty_nil, Bool.not_true, Bool.and_false,
      if_false, List.nil_append]
    rfl
  | cons s1 srest =>
    rw [hs] at hgood
    have hgood3 : ∀ s ∈ s1 :: srest, s ≠ [] ∧ s ≠ ['.'] ∧ s ≠ ['.', '.'] :=
      fun s hsm => ⟨(hgood s hsm).1.1, (hgood s hsm).2.1, (hgood s hsm).2.2⟩
    have hgood2 : ∀ s ∈ s1 :: srest, s ≠ [] ∧ ∀ c ∈ s, is_path_separator c = false :=
      fun s hsm => ⟨(hgood s hsm).1.1, (hgood s hsm).1.2⟩
    have hbody_ne : joinSegs (s1 :: srest) ≠ [] :=
      joinSegs_ne_nil s1 srest (hgood2 s1 (by simp)).1
    simp only [hs, List.isEmpty_cons, Bool.not_false, Bool.and_true]
    cases he : endsSep (x0 :: x1 :: xr) with
    | true =>
      simp only [if_true]
      rw [canonDrive_cons2]
      have hsplit : splitSegs ((('\\' :: (joinSegs (s1 :: srest) ++ ['\\'])) : List Char).drop 1)
          = (s1 :: srest) ++ [[]] := by
        simp only [List.drop_succ_cons, List.drop_zero]
        exact splitSegs_joinSegs (s1 :: srest) (by simp) hgood2 ['\\'] [[]] rfl
      rw [hsplit, normSegs_fix_trailing _ hgood3]
      have hends : endsSep (x0 :: x1 :: '\\' :: (joinSegs (s1 :: srest) ++ ['\\'])) = true := by
        have : x0 :: x1 :: '\\' :: (joinSegs (s1 :: srest) ++ ['\\'])
            = (x0 :: x1 :: '\\' :: joinSegs (s1 :: srest)) ++ ['\\'] := by simp
        rw [this]
        exact endsSep_concat_sep _
      rw [hends]
      simp
    | false =>
      simp only [Bool.false_eq_true, if_false]
      rw [canonDrive_cons2]
      have hsplit : splitSegs ((('\\' :: (joinSegs (s1 :: srest) ++ [])) : List Char).drop 1)
          = (s1 :: srest) ++ [] := by
        simp only [List.drop_succ_cons, List.drop_zero]
        exact splitSegs_joinSegs (s1 :: srest) (by simp) hgood2 [] [] rfl
      rw [hsplit, List.append_nil, normSegs_fix _ hgood3]
      have hends : endsSep (x0 :: x1 :: '\\' :: (joinSegs (s1 :: srest) ++ [])) = false := by
        obtain ⟨c, s, hmem, hlast, hcs⟩ := joinSegs_getLast (s1 :: srest) (by simp)
          (fun s hsm => (hgood2 s hsm).1)
        have h1 : x0 :: x1 :: '\\' :: (joinSegs (s1 :: srest) ++ [])
            = [x0, x1, '\\'] ++ joinSegs (s1 :: srest) := by simp
        rw [h1, endsSep_append _ _ hbody_ne]
        unfold endsSep
        rw [hlast]
        exact (hgood2 s hmem).2 c hcs
      rw [hends]
      simp


/-! ## Path-kind inversion lemmas -/

theorem sep_colon_false : is_path_separator ':' = false := by decide

theorem isLetter_not_sep (c : Char) (h : isLetter c = true) : is_path_separator c = false := by
  by_cases h1 : c = '\\'
  · subst h1; simp [isLetter] at h
  · by_cases h2 : c = '/'
    · subst h2; simp [isLetter] at h
    · simp [is_path_separator, h1, h2]

theorem pathType_nil_iff (l : List Char) : pathType l = dos_path_type.unknown ↔ l = [] := by
  constructor
  · intro h
    match l, h with
    | [], _ => rfl
    | [a], h =>
      exfalso
      by_cases h0 : is_path_separator a <;> by_cases h1 : isLetter a <;>
        simp [pathType, h0, h1] at h
    | [a, b], h =>
      exfalso
      by_cases h0 : is_path_separator a <;> by_cases h1 : is_path_separator b <;>
        by_cases h2 : isLetter a <;> by_cases h3 : b = ':' <;>
          simp [pathType, h0, h1, h2, h3, sep_colon_false] at h
    | a :: b :: c :: r, h =>
      exfalso
      by_cases h0 : is_path_separator a
      · by_cases h1 : is_path_separator b
        · cases r with
          | nil => simp [pathType, h0, h1] at h
          | cons d r2 =>
            by_cases h2 : (c = '?' ∧ is_path_separator d = true)
            · simp [pathType, h0, h1, Bool.and_eq_true, h2] at h
            · by_cases h3 : (c = '.' ∧ is_path_separator d = true)
              · simp [pathType, h0, h1, Bool.and_eq_true, h2, h3] at h
              · simp [pathType, h0, h1, Bool.and_eq_true, h2, h3] at h
        · simp [pathType, h0, h1] at h
      · by_cases h1 : isLetter a <;> by_cases h2 : b = ':' <;>
          by_cases h3 : is_path_separator c <;>
            simp [pathType, h0, h1, h2, h3, sep_colon_false] at h
  · intro h; subst h; rfl

theorem pathType_drive_shape (l : List Char) (h : pathType l = dos_path_type.drive_absolute) :
    ∃ c0 c2 r, l = c0 :: ':' :: c2 :: r ∧ isLetter c0 = true ∧ is_path_separator c2 = true
      ∧ is_path_separator c0 = false := by
  match l, h with
  | [a], h =>
    exfalso
    by_cases h0 : is_path_separator a <;> by_cases h1 : isLetter a <;>
      simp [pathType, h0, h1] at h
  | [a, b], h =>
    exfalso
    by_cases h0 : is_path_separator a <;> by_cases h1 : is_path_separator b <;>
      by_cases h2 : isLetter a <;> by_cases h3 : b = ':' <;>
        simp [pathType, h0, h1, h2, h3, sep_colon_false] at h
  | a :: b :: c :: r, h =>
    by_cases h0 : is_path_separator a
    · exfalso
      by_cases h1 : is_path_separator b
      · cases r with
        | nil => simp [pathType, h0, h1] at h
        | cons d r2 =>
          by_cases h2 : (c = '?' ∧ is_path_separator d = true)
          · simp [pathType, h0, h1, Bool.and_eq_true, h2] at h
          · by_cases h3 : (c = '.' ∧ is_path_separator d = true)
            · simp [pathType, h0, h1, Bool.and_eq_true, h2, h3] at h
            · simp [pathType, h0, h1, Bool.and_eq_true, h2, h3] at h
      · simp [pathType, h0, h1] at h
    · by_cases h1 : isLetter a
      · by_cases h2 : b = ':'
        · subst h2
          by_cases h3 : is_path_separator c
          · exact ⟨a, c, r, rfl, h1, h3, by simpa using h0⟩
          · exfalso; simp [pathType, h0, h1, h3] at h
        · exfalso; simp [pathType, h0, h1, h2] at h
      · exfalso; simp [pathType, h0, h1] at h

theorem pathType_drive_intro (c0 c2 : Char) (r : List Char)
    (h1 : isLetter c0 = true) (h2 : is_path_separator c2 = true) :
    pathType (c0 :: ':' :: c2 :: r) = dos_path_type.drive_absolute := by
  simp [pathType, isLetter_not_sep c0 h1, h1, h2]

theorem pathType_unc_shape (l : List Char) (h : pathType l = dos_path_type.unc_absolute) :
    ∃ a b r, l = a :: b :: r ∧ is_path_separator a = true ∧ is_path_separator b = true := by
  match l, h with
  | [a], h =>
    exfalso
    by_cases h0 : is_path_separator a <;> by_cases h1 : isLetter a <;>
      simp [pathType, h0, h1] at h
  | [a, b], h =>
    by_cases h0 : is_path_separator a
    · by_cases h1 : is_path_separator b
      · exact ⟨a, b, [], rfl, h0, h1⟩
      · exfalso; simp [pathType, h0, h1] at h
    · exfalso
      by_cases h1 : isLetter a <;> by_cases h2 : b = ':' <;>
        simp [pathType, h0, h1, h2, sep_colon_false] at h
  | a :: b :: c :: r, h =>
    by_cases h0 : is_path_separator a
    · by_cases h1 : is_path_separator b
      · exact ⟨a, b, c :: r, rfl, h0, h1⟩
      · exfalso; simp [pathType, h0, h1] at h
    · exfalso
      by_cases h1 : isLetter a <;> by_cases h2 : b = ':' <;>
        by_cases h3 : is_path_separator c <;>
          simp [pathType, h0, h1, h2, h3, sep_colon_false] at h

theorem pathType_ld_shape (l : List Char) (h : pathType l = dos_path_type.local_device) :
    ∃ a b d r, l = a :: b :: '.' :: d :: r ∧ is_path_separator a = true
      ∧ is_path_separator b = true ∧ is_path_separator d = true := by
  match l, h with
  | [a], h =>
    exfalso
    by_cases h0 : is_path_separator a <;> by_cases h1 : isLetter a <;>
      simp [pathType, h0, h1] at h
  | [a, b], h =>
    exfalso
    by_cases h0 : is_path_separator a <;> by_cases h1 : is_path_separator b <;>
      by_cases h2 : isLetter a <;> by_cases h3 : b = ':' <;>
        simp [pathType, h0, h1, h2, h3, sep_colon_false] at h
  | [a, b, c], h =>
    exfalso
    by_cases h0 : is_path_separator a
    · by_cases h1 : is_path_separator b <;> simp [pathType, h0, h1] at h
    · by_cases h1 : isLetter a <;> by_cases h2 : b = ':' <;>
        by_cases h3 : is_path_separator c <;>
          simp [pathType, h0, h1, h2, h3, sep_colon_false] at h
  | a :: b :: c :: d :: r, h =>
    by_cases h0 : is_path_separator a
    · by_cases h1 : is_path_separator b
      · by_cases hq : (c = '?' ∧ is_path_separator d = true)
        · exfalso; simp [pathType, h0, h1, Bool.and_eq_true, hq] at h
        · by_cases hp : (c = '.' ∧ is_path_separator d = true)
          · exact ⟨a, b, d, r, by rw [hp.1], h0, h1, hp.2⟩
          · exfalso; simp [pathType, h0, h1, Bool.and_eq_true, hq, hp] at h
      · exfalso; simp [pathType, h0, h1] at h
    · exfalso
      by_cases h1 : isLetter a <;> by_cases h2 : b = ':' <;>
        by_cases h3 : is_path_separator c <;>
          simp [pathType, h0, h1, h2, h3, sep_colon_false] at h

theorem pathType_rld_shape (l : List Char) (h : pathType l = dos_path_type.root_local_device) :
    ∃ a b d r, l = a :: b :: '?' :: d :: r ∧ is_path_separator a = true
      ∧ is_path_separator b = true ∧ is_path_separator d = true := by
  match l, h with
  | [a], h =>
    exfalso
    by_cases h0 : is_path_separator a <;> by_cases h1 : isLetter a <;>
      simp [pathType, h0, h1] at h
  | [a, b], h =>
    exfalso
    by_cases h0 : is_path_separator a <;> by_cases h1 : is_path_separator b <;>
      by_cases h2 : isLetter a <;> by_cases h3 : b = ':' <;>
        simp [pathType, h0, h1, h2, h3, sep_colon_false] at h
  | [a, b, c], h =>
    exfalso
    by_cases h0 : is_path_separator a
    · by_cases h1 : is_path_separator b <;> simp [pathType, h0, h1] at h
    · by_cases h1 : isLetter a <;> by_cases h2 : b = ':' <;>
        by_cases h3 : is_path_separator c <;>
          simp [pathType, h0, h1, h2, h3, sep_colon_false] at h
  | a :: b :: c :: d :: r, h =>
    by_cases h0 : is_path_separator a
    · by_cases h1 : is_path_separator b
      · by_cases hq : (c = '?' ∧ is_path_separator d = true)
        · exact ⟨a, b, d, r, by rw [hq.1], h0, h1, hq.2⟩
        · exfalso
          by_cases hp : (c = '.' ∧ is_path_separator d = true) <;>
            simp [pathType, h0, h1, Bool.and_eq_true, hq, hp] at h
      · exfalso; simp [pathType, h0, h1] at h
    · exfalso
      by_cases h1 : isLetter a <;> by_cases h2 : b = ':' <;>
        by_cases h3 : is_path_separator c <;>
          simp [pathType, h0, h1, h2, h3, sep_colon_false] at h

/-! ## Idempotence of normalization -/

theorem sep_ne_chars (c : Char) (h : is_path_separator c = true) :
    c ≠ ':' ∧ c ≠ 'b' ∧ c ≠ 'B' := by
  simp only [is_path_separator, Bool.or_eq_true, decide_eq_true_eq] at h
  rcases h with rfl | rfl <;> refine ⟨by decide, by decide, by decide⟩

theorem letter_ne_colon (c : Char) (h : isLetter c = true) : c ≠ ':' := by
  intro hc
  subst hc
  simp [isLetter] at h

theorem blob_false_of_head (c : Char) (t : List Char) (h1 : c ≠ 'b') (h2 : c ≠ 'B') :
    IsBlobColon (c :: t) = false := by
  have h5 : (c :: t).take 5 = c :: t.take 4 := rfl
  have hb : "blob:".toList = ['b', 'l', 'o', 'b', ':'] := rfl
  have hB : "BLOB:".toList = ['B', 'L', 'O', 'B', ':'] := rfl
  simp [IsBlobColon, h5, hb, hB, h1, h2]

theorem blob_false_of_second_colon (c : Char) (t : List Char) :
    IsBlobColon (c :: ':' :: t) = false := by
  have h5 : (c :: ':' :: t).take 5 = c :: ':' :: t.take 3 := rfl
  have hb : "blob:".toList = ['b', 'l', 'o', 'b', ':'] := rfl
  have hB : "BLOB:".toList = ['B', 'L', 'O', 'B', ':'] := rfl
  simp [IsBlobColon, h5, hb, hB]

theorem canonDrive_nil : canonDrive ([] : List Char) = ['\\'] := rfl

theorem canonDrive_one (x0 : Char) : canonDrive [x0] = [x0, '\\'] := by
  unfold canonDrive
  simp [canonBody, splitSegs, normSegs, normSegsAux, joinSegs]

theorem canonDrive_ne_nil (x : List Char) : canonDrive x ≠ [] := by
  unfold canonDrive
  simp

theorem canonDrive_not_ld (x : List Char) :
    pathType (canonDrive x) ≠ dos_path_type.local_device := by
  intro h
  match x with
  | [] => rw [canonDrive_nil] at h; exact absurd h (by decide)
  | [x0] =>
    rw [canonDrive_one] at h
    obtain ⟨a, b, d, r, heq, _, _, _⟩ := pathType_ld_shape _ h
    simp at heq
  | x0 :: x1 :: xr =>
    rw [canonDrive_cons2] at h
    obtain ⟨a, b, d, r, heq, _, _, _⟩ := pathType_ld_shape _ h
    simp only [List.cons.injEq] at heq
    exact absurd heq.2.2.1.symm (by decide)

theorem canonDrive_not_rld (x : List Char) :
    pathType (canonDrive x) ≠ dos_path_type.root_local_device := by
  intro h
  match x with
  | [] => rw [canonDrive_nil] at h; exact absurd h (by decide)
  | [x0] =>
    rw [canonDrive_one] at h
    obtain ⟨a, b, d, r, heq, _, _, _⟩ := pathType_rld_shape _ h
    simp at heq
  | x0 :: x1 :: xr =>
    rw [canonDrive_cons2] at h
    obtain ⟨a, b, d, r, heq, _, _, _⟩ := pathType_rld_shape _ h
    simp only [List.cons.injEq] at heq
    exact absurd heq.2.2.1.symm (by decide)

theorem pathType_canonDrive_drive (x : List Char) (h : pathType x = dos_path_type.drive_absolute) :
    pathType (canonDrive x) = dos_path_type.drive_absolute := by
  obtain ⟨c0, c2, r, rfl, hl, _, _⟩ := pathType_drive_shape x h
  rw [canonDrive_cons2]
  exact pathType_drive_intro c0 '\\' _ hl (by decide)

theorem canonDrive_fix (x : List Char)
    (h : pathType (canonDrive x) = dos_path_type.drive_absolute) :
    canonDrive (canonDrive x) = canonDrive x := by
  match x with
  | [] => rw [canonDrive_nil] at h ⊢; exact absurd h (by decide)
  | [x0] =>
    rw [canonDrive_one] at h
    obtain ⟨c0, c2, r, heq, _, _, _⟩ := pathType_drive_shape _ h
    simp only [List.cons.injEq] at heq
    exact absurd heq.2.1.symm (by decide)
  | x0 :: x1 :: xr => exact canonDrive_fix2 x0 x1 xr

theorem fullPath_eq_of_drive (cwd x : List Char) (h : pathType x = dos_path_type.drive_absolute) :
    fullPath cwd x = canonDrive x := by
  unfold fullPath
  rw [h]

theorem NormalizePathImpl_canonCase (cwd s X : List Char)
    (hne : pathType s ≠ dos_path_type.unknown)
    (hnr : pathType s ≠ dos_path_type.root_local_device)
    (hfp : fullPath cwd s = canonDrive X) :
    (NormalizePathImpl cwd s).full_path ≠ [] →
    IsColonColonGuid (NormalizePathImpl cwd s).full_path = false
    ∧ IsBlobColon (NormalizePathImpl cwd s).full_path = false
    ∧ NormalizePathImpl cwd ((NormalizePathImpl cwd s).full_path) = NormalizePathImpl cwd s := by
  intro hfne
  cases htf : pathType (canonDrive X) with
  | unknown => exact absurd ((pathType_nil_iff _).mp htf) (canonDrive_ne_nil X)
  | drive_absolute =>
    have himpl : NormalizePathImpl cwd s
        = { full_path := canonDrive X, drive_absolute_path := some (canonDrive X) } := by
      simp [NormalizePathImpl, hne, hnr, hfp, htf]
    obtain ⟨c0, c2, r, hshape, hl, hsep2, hsep0⟩ := pathType_drive_shape _ htf
    rw [himpl]
    refine ⟨?_, ?_, ?_⟩
    · rw [hshape]
      exact guid_false_of_head c0 _ (letter_ne_colon c0 hl)
    · rw [hshape]
      exact blob_false_of_second_colon c0 _
    · have hfix : canonDrive (canonDrive X) = canonDrive X := canonDrive_fix X htf
      have h2 : fullPath cwd (canonDrive X) = canonDrive X := by
        rw [fullPath_eq_of_drive cwd (canonDrive X) htf, hfix]
      simp [NormalizePathImpl, htf, h2]
  | unc_absolute =>
    have himpl : NormalizePathImpl cwd s
        = { full_path := canonDrive X, drive_absolute_path := none } := by
      simp [NormalizePathImpl, hne, hnr, hfp, htf]
    obtain ⟨a, b, r, hshape, hsa, hsb⟩ := pathType_unc_shape _ htf
    rw [himpl]
    refine ⟨?_, ?_, ?_⟩
    · rw [hshape]
      exact guid_false_of_head a _ (sep_ne_chars a hsa).1
    · rw [hshape]
      exact blob_false_of_head a _ (sep_ne_chars a hsa).2.1 (sep_ne_chars a hsa).2.2
    · have h2 : fullPath cwd (canonDrive X) = canonDrive X := by
        unfold fullPath
        rw [htf]
      simp [NormalizePathImpl, htf, h2]
  | local_device => exact absurd htf (canonDrive_not_ld X)
  | root_local_device => exact absurd htf (canonDrive_not_rld X)
  | drive_relative =>
    exfalso
    apply hfne
    simp [NormalizePathImpl, hne, hnr, hfp, htf]
  | rooted =>
    exfalso
    apply hfne
    simp [NormalizePathImpl, hne, hnr, hfp, htf]
  | relative =>
    exfalso
    apply hfne
    simp [NormalizePathImpl, hne, hnr, hfp, htf]

theorem NormalizePathImpl_self (cwd s : List Char)
    (hne : (NormalizePathImpl cwd s).full_path ≠ []) :
    IsColonColonGuid (NormalizePathImpl cwd s).full_path = false
    ∧ IsBlobColon (NormalizePathImpl cwd s).full_path = false
    ∧ NormalizePathImpl cwd ((NormalizePathImpl cwd s).full_path) = NormalizePathImpl cwd s := by
  cases hpt : pathType s with
  | unknown =>
    exfalso
    apply hne
    simp [NormalizePathImpl, hpt]
  | root_local_device =>
    obtain ⟨a, b, d, r, rfl, ha, hb, hd⟩ := pathType_rld_shape s hpt
    have himpl : NormalizePathImpl cwd (a :: b :: '?' :: d :: r)
        = { full_path := a :: b :: '?' :: d :: r
            drive_absolute_path :=
              if pathType ((a :: b :: '?' :: d :: r).drop 4) = dos_path_type.drive_absolute
              then some ((a :: b :: '?' :: d :: r).drop 4) else none } := by
      simp [NormalizePathImpl, hpt]
    rw [himpl]
    exact ⟨guid_false_of_head a _ (sep_ne_chars a ha).1,
      blob_false_of_head a _ (sep_ne_chars a ha).2.1 (sep_ne_chars a ha).2.2, himpl⟩
  | drive_absolute =>
    refine NormalizePathImpl_canonCase cwd s s (by rw [hpt]; decide) (by rw [hpt]; decide)
      ?_ hne
    unfold fullPath
    rw [hpt]
  | drive_relative =>
    refine NormalizePathImpl_canonCase cwd s (s.take 2 ++ '\\' :: s.drop 2)
      (by rw [hpt]; decide) (by rw [hpt]; decide) ?_ hne
    unfold fullPath
    rw [hpt]
  | rooted =>
    refine NormalizePathImpl_canonCase cwd s (cwd.take 2 ++ s)
      (by rw [hpt]; decide) (by rw [hpt]; decide) ?_ hne
    unfold fullPath
    rw [hpt]
  | relative =>
    refine NormalizePathImpl_canonCase cwd s (cwd ++ '\\' :: s)
      (by rw [hpt]; decide) (by rw [hpt]; decide) ?_ hne
    unfold fullPath
    rw [hpt]
  | unc_absolute =>
    have himpl : NormalizePathImpl cwd s
        = { full_path := s, drive_absolute_path := none } := by
      have hfp : fullPath cwd s = s := by
        unfold fullPath
        rw [hpt]
      simp [NormalizePathImpl, hpt, hfp]
    obtain ⟨a, b, r, hshape, hsa, hsb⟩ := pathType_unc_shape s hpt
    rw [himpl]
    refine ⟨?_, ?_, by rw [himpl]⟩
    · rw [hshape]
      exact guid_false_of_head a _ (sep_ne_chars a hsa).1
    · rw [hshape]
      exact blob_false_of_head a _ (sep_ne_chars a hsa).2.1 (sep_ne_chars a hsa).2.2
  | local_device =>
    obtain ⟨a, b, d, r, rfl, ha, hb, hd⟩ := pathType_ld_shape s hpt
    set tail2 := (if pathType r = dos_path_type.drive_absolute then canonDrive r else r)
      with htail
    have hfp : fullPath cwd (a :: b :: '.' :: d :: r) = a :: b :: '.' :: d :: tail2 := by
      unfold fullPath
      rw [hpt]
      rfl
    have htE : pathType (a :: b :: '.' :: d :: tail2) = dos_path_type.local_device := by
      cases tail2 with
      | nil => simp [pathType, ha, hb, hd]
      | cons t0 ts => simp [pathType, ha, hb, hd]
    have hdropE : (a :: b :: '.' :: d :: tail2).drop 4 = tail2 := rfl
    have himpl : NormalizePathImpl cwd (a :: b :: '.' :: d :: r)
        = { full_path := a :: b :: '.' :: d :: tail2
            drive_absolute_path :=
              if pathType tail2 = dos_path_type.drive_absolute then some tail2 else none } := by
      simp [NormalizePathImpl, hpt, hfp, htE, hdropE]
    have htail2_fix : (if pathType tail2 = dos_path_type.drive_absolute
        then canonDrive tail2 else tail2) = tail2 := by
      by_cases hdr : pathType r = dos_path_type.drive_absolute
      · have h1 : tail2 = canonDrive r := by rw [htail, if_pos hdr]
        have h2 : pathType tail2 = dos_path_type.drive_absolute := by
          rw [h1]; exact pathType_canonDrive_drive r hdr
        rw [if_pos h2, h1, canonDrive_fix r (h1 ▸ h2)]
      · have h1 : tail2 = r := by rw [htail, if_neg hdr]
        rw [h1, if_neg hdr]
    have himpl2 : NormalizePathImpl cwd (a :: b :: '.' :: d :: tail2)
        = { full_path := a :: b :: '.' :: d :: tail2
            drive_absolute_path :=
              if pathType tail2 = dos_path_type.drive_absolute then some tail2 else none } := by
      have hfp2 : fullPath cwd (a :: b :: '.' :: d :: tail2)
          = a :: b :: '.' :: d :: tail2 := by
        unfold fullPath
        rw [htE]
        show (a :: b :: '.' :: d :: tail2).take 4
            ++ (if pathType ((a :: b :: '.' :: d :: tail2).drop 4) = dos_path_type.drive_absolute
                then canonDrive ((a :: b :: '.' :: d :: tail2).drop 4)
                else (a :: b :: '.' :: d :: tail2).drop 4)
          = a :: b :: '.' :: d :: tail2
        rw [hdropE]
        show a :: b :: '.' :: d :: ((if pathType tail2 = dos_path_type.drive_absolute
            then canonDrive tail2 else tail2)) = _
        rw [htail2_fix]
      simp [NormalizePathImpl, htE, hfp2, hdropE]
    rw [himpl]
    exact ⟨guid_false_of_head a _ (sep_ne_chars a ha).1,
      blob_false_of_head a _ (sep_ne_chars a ha).2.1 (sep_ne_chars a ha).2.2,
      by rw [himpl2]⟩

theorem normalize_via_impl (cwd s0 f : List Char)
    (hf : (NormalizePathImpl cwd s0).full_path = f)
    (hne : f ≠ [])
    (hdec : UrlDecode f = f)
    (hstrip : StripFileColonSlash f = f) :
    NormalizePath cwd f = NormalizePathImpl cwd s0 := by
  obtain ⟨hguid, hblob, hidem⟩ := NormalizePathImpl_self cwd s0 (by rw [hf]; exact hne)
  rw [hf] at hguid hblob hidem
  simp only [NormalizePath, hne, if_true, hguid, hblob, Bool.false_eq_true, if_false,
    hdec, hstrip]
  simpa [hne] using hidem

/-- C3 (amended): normalization is idempotent for every resolvable input
whose normalized full path is left unchanged by the percent-decoding and
`file:`-prefix-stripping that `NormalizePath` re-applies on the second
pass: under those conditions
`NormalizePath(NormalizePath(p).full_path) = NormalizePath(p)`.  Without
them the law fails, because a full path containing `%` is decoded again
(see the counterexample). -/
theorem C3_normalize_idempotent (cwd p f : List Char)
    (hf : (NormalizePath cwd p).full_path = f)
    (hne : f ≠ [])
    (hdec : UrlDecode f = f)
    (hstrip : StripFileColonSlash f = f) :
    NormalizePath cwd f = NormalizePath cwd p := by
  by_cases hp : p = []
  · subst hp
    have h0 : NormalizePath cwd ([] : List Char) = NormalizePathImpl cwd ['.'] := rfl
    rw [h0] at hf ⊢
    exact normalize_via_impl cwd ['.'] f hf hne hdec hstrip
  · by_cases hguidp : IsColonColonGuid p = true
    · have h0 : NormalizePath cwd p = { full_path := p, drive_absolute_path := none } := by
        simp [NormalizePath, hp, hguidp]
      rw [h0] at hf
      have hfp : p = f := hf
      subst hfp
      rw [h0]
    · by_cases hblobp : IsBlobColon p = true
      · have h0 : NormalizePath cwd p = { full_path := p, drive_absolute_path := none } := by
          simp [NormalizePath, hp, hguidp, hblobp]
        rw [h0] at hf
        have hfp : p = f := hf
        subst hfp
        rw [h0]
      · have h0 : NormalizePath cwd p
            = NormalizePathImpl cwd (StripFileColonSlash (UrlDecode p)) := by
          simp [NormalizePath, hp, hguidp, hblobp]
        rw [h0] at hf ⊢
        exact normalize_via_impl cwd _ f hf hne hdec hstrip

theorem C3_normalize_idempotent_witness :
    NormalizePath "c:\\base".toList "c:\\f.txt".toList
      = NormalizePath "c:\\base".toList "c:\\stuff\\..\\f.txt".toList :=
  C3_normalize_idempotent "c:\\base".toList "c:\\stuff\\..\\f.txt".toList
    "c:\\f.txt".toList (by decide) (by decide) (by decide) (by decide)

/-- C3 counterexample: the input `c:\foo%2541` decodes once to
`c:\foo%41`, which is the normalized full path; feeding that full path
back through `NormalizePath` decodes the remaining `%41` to `A`, so the
second normalization differs from the first. -/
theorem C3_normalize_idempotent_counterexample :
    NormalizePath "c:\\base".toList
        ((NormalizePath "c:\\base".toList "c:\\foo%2541".toList).full_path)
      ≠ NormalizePath "c:\\base".toList "c:\\foo%2541".toList
    ∧ (NormalizePath "c:\\base".toList "c:\\foo%2541".toList).full_path
        = "c:\\foo%41".toList
    ∧ (NormalizePath "c:\\base".toList "c:\\foo%41".toList).full_path
        = "c:\\fooA".toList :=
  ⟨by decide, by decide, by decide⟩
